import Mathlib

/-! Shallow embedding of the multi-stage color transform pipeline of
`src/lut.rs` (types `Stage` and `Pipeline` and their evaluation kernels).
`f32`/`f64` values are modelled as exact rationals (`ℚ`); Rust panics are
modelled as `Option.none`; in-place writes to the leading entries of a
slice are modelled by `writeRange`, which overwrites the leading entries
of a buffer and keeps the rest. -/

set_option maxRecDepth 65536

namespace Lut

/-- Modelled from the spec: the fixed maximum channel bound
(`alpha::MAX_CHANNELS` is imported from a module that is not under
`src/`). The spec calls it "the fixed maximum channel bound" without
fixing a value; 16 is the bound used by Little CMS, from which this
code derives. The theorems below depend only on the comparison against
this constant, not on its value. -/
def MAX_CHANNELS : Nat := 16

/-- The constant `MAX_STAGE_CHANNELS: usize = 128` from `src/lut.rs`:
the fixed capacity of each evaluation scratch buffer. -/
def MAX_STAGE_CHANNELS : Nat := 128

/-- The `StageType` enum of `src/lut.rs` (discriminant values omitted:
nothing in the verified code observes them). -/
inductive StageType
  | CurveSet
  | Matrix
  | CLut
  | BAcs
  | EAcs
  | XYZ2Lab
  | Lab2XYZ
  | NamedColor
  | LabV2toV4
  | LabV4toV2
  | Identity
  | Lab2FloatPCS
  | FloatPCS2Lab
  | XYZ2FloatPCS
  | FloatPCS2XYZ
  | ClipNegatives
deriving DecidableEq

/-- The `StageData` payload enum of `src/lut.rs`. The curve-set and
named-color payloads wrap external collaborator types
(`gamma::ToneCurve`, `transform::NamedColorList`) whose code is not
under `src/`; they are kept as opaque variants, and no verified claim
evaluates a stage carrying them. -/
inductive StageData
  | none
  | matrix (matrix : List ℚ) (offset : Option (List ℚ))
  | curves
  | namedColorList
deriving DecidableEq

/-- The evaluation function pointer stored in each stage
(`eval_fn: StageEvalFn` in `src/lut.rs`). The source selects it from a
closed set of kernels at construction time; the kernels whose bodies
call external collaborators not under `src/` (`evaluate_curves`,
`evaluate_xyz_to_lab`, `evaluate_lab_to_xyz`) are not modelled, since
no verified claim exercises them. -/
inductive StageEvalFn
  | evaluate_matrix
  | clipper
  | evaluate_identity
deriving DecidableEq

/-- The `Stage` struct of `src/lut.rs`: `ty` is the mechanism tag,
`implements` the semantic tag (defaults to `ty`, overwritten by some
factories). -/
structure Stage where
  ty : StageType
  implements : StageType
  input_channels : Nat
  output_channels : Nat
  eval_fn : StageEvalFn
  data : StageData
deriving DecidableEq

/-- `Stage::alloc` from `src/lut.rs`. -/
def Stage.alloc (ty : StageType) (input_channels output_channels : Nat)
    (eval_fn : StageEvalFn) (data : StageData) : Stage :=
  { ty := ty, implements := ty, input_channels := input_channels,
    output_channels := output_channels, eval_fn := eval_fn, data := data }

/-- `Stage::new_matrix` from `src/lut.rs`: a `rows`×`cols` coefficient
matrix stored row-major plus an optional offset vector; note that
`input_channels = cols` and `output_channels = rows`. -/
def Stage.new_matrix (rows cols : Nat) (matrix : List ℚ)
    (offset : Option (List ℚ)) : Stage :=
  Stage.alloc StageType.Matrix cols rows StageEvalFn.evaluate_matrix
    (StageData.matrix matrix offset)

/-- The constant `V2_TO_V4` of `Stage::new_labv2_to_v4`. -/
def V2_TO_V4 : List ℚ :=
  [65535 / 65280, 0, 0, 0, 65535 / 65280, 0, 0, 0, 65535 / 65280]

/-- `Stage::new_labv2_to_v4` from `src/lut.rs`: a 3×3 diagonal matrix
stage, re-tagged with the `LabV2toV4` semantic kind. -/
def Stage.new_labv2_to_v4 : Stage :=
  { Stage.new_matrix 3 3 V2_TO_V4 Option.none with
      implements := StageType.LabV2toV4 }

/-- The constant `V4_TO_V2` of `Stage::new_labv4_to_v2`. -/
def V4_TO_V2 : List ℚ :=
  [65280 / 65535, 0, 0, 0, 65280 / 65535, 0, 0, 0, 65280 / 65535]

/-- `Stage::new_labv4_to_v2` from `src/lut.rs`. -/
def Stage.new_labv4_to_v2 : Stage :=
  { Stage.new_matrix 3 3 V4_TO_V2 Option.none with
      implements := StageType.LabV4toV2 }

/-- `Stage::new_clip_negatives` from `src/lut.rs`. -/
def Stage.new_clip_negatives (channels : Nat) : Stage :=
  Stage.alloc StageType.ClipNegatives channels channels
    StageEvalFn.clipper StageData.none

/-- `Stage::new_identity` from `src/lut.rs`. -/
def Stage.new_identity (channels : Nat) : Stage :=
  Stage.alloc StageType.Identity channels channels
    StageEvalFn.evaluate_identity StageData.none

/-- Helper for `writeRange`: `start` is the absolute index of the head
of the remaining buffer. -/
def writeRangeAux {α : Type} (f : Nat → α) (n : Nat) : Nat → List α → List α
  | _, [] => []
  | start, v :: rest =>
      (if start < n then f start else v) :: writeRangeAux f n (start + 1) rest

/-- Models a Rust loop `for i in 0..n { output[i] = f(i) }` over a
slice: the leading `n` entries of the buffer are overwritten with `f`,
the trailing entries are kept. (Out-of-bounds writes do not occur in
the translated kernels because every use is behind a bounds guard.) -/
def writeRange {α : Type} (f : Nat → α) (n : Nat) (l : List α) : List α :=
  writeRangeAux f n 0 l

/-- `copy_float_slice` from `src/lut.rs`: when the source is longer
than the destination the copy is truncated to the destination length;
otherwise the whole source is copied into the leading entries and the
destination's tail is kept. -/
def copy_float_slice (src dest : List ℚ) : List ℚ :=
  if dest.length < src.length then
    writeRange (fun i => src.getD i 0) dest.length dest
  else
    writeRange (fun i => src.getD i 0) src.length dest

/-- `evaluate_identity` from `src/lut.rs` (the unused `&Stage` argument
is dropped). -/
def evaluate_identity (input output : List ℚ) : List ℚ :=
  copy_float_slice input output

/-- The inner accumulation loop of `evaluate_matrix`: `tmp` starts at 0
and accumulates `input[j] * matrix[i*input_channels + j]` over
`j in 0..input_channels`. The source accumulates in `f64`; rationals
are exact, so no separate accumulator type is needed. -/
def matrixAcc (input matrix : List ℚ) (inCh i : Nat) : ℚ :=
  (List.range inCh).foldl
    (fun tmp j => tmp + input.getD j 0 * matrix.getD (i * inCh + j) 0) 0

/-- The offset contribution of one output channel of `evaluate_matrix`:
`offset[i]` when an offset vector is present, `0` otherwise. -/
def offsetTerm (offset : Option (List ℚ)) (i : Nat) : ℚ :=
  match offset with
  | Option.some o => o.getD i 0
  | Option.none => 0

/-- `evaluate_matrix` from `src/lut.rs`. A payload that is not
`StageData::Matrix` panics in the source (`Option.none` here), and
out-of-bounds slice indexing panics; the guards are exactly the
conditions under which every access of the two nested loops is in
bounds (when `output_channels = 0` neither loop body runs, so nothing
is accessed and the output is returned unchanged). -/
def evaluate_matrix (input output : List ℚ) (stage : Stage) : Option (List ℚ) :=
  match stage.data with
  | StageData.matrix mat off =>
      if stage.output_channels = 0 then Option.some output
      else
        match off with
        | Option.none =>
            if stage.input_channels ≤ input.length ∧
                stage.output_channels ≤ output.length ∧
                stage.output_channels * stage.input_channels ≤ mat.length then
              Option.some (writeRange
                (fun i => matrixAcc input mat stage.input_channels i)
                stage.output_channels output)
            else Option.none
        | Option.some o =>
            if stage.input_channels ≤ input.length ∧
                stage.output_channels ≤ output.length ∧
                stage.output_channels * stage.input_channels ≤ mat.length ∧
                stage.output_channels ≤ o.length then
              Option.some (writeRange
                (fun i => matrixAcc input mat stage.input_channels i + o.getD i 0)
                stage.output_channels output)
            else Option.none
  | _ => Option.none

/-- `clipper` from `src/lut.rs`: writes `max(input[i], 0)` for each of
the declared input channels; out-of-bounds indexing panics
(`Option.none`). -/
def clipper (input output : List ℚ) (stage : Stage) : Option (List ℚ) :=
  if stage.input_channels ≤ input.length ∧
      stage.input_channels ≤ output.length then
    Option.some (writeRange (fun i => max (input.getD i 0) 0)
      stage.input_channels output)
  else Option.none

/-- Dispatch through the stage's stored evaluation function pointer:
`(stage.eval_fn)(input, output, stage)` in the source. -/
def Stage.eval (stage : Stage) (input output : List ℚ) : Option (List ℚ) :=
  match stage.eval_fn with
  | StageEvalFn.evaluate_matrix => evaluate_matrix input output stage
  | StageEvalFn.clipper => clipper input output stage
  | StageEvalFn.evaluate_identity =>
      Option.some (evaluate_identity input output)

/-- The `Pipeline` struct of `src/lut.rs`. The `eval_16_fn` and
`eval_float_fn` fields always hold `lut_eval_16` and `lut_eval_float`
(set once in `Pipeline::alloc` and never changed), and the `data` field
is `()`; these constant fields are omitted. -/
structure Pipeline where
  elements : List Stage
  input_channels : Nat
  output_channels : Nat
  save_as_8_bits : Bool
deriving DecidableEq

/-- `Pipeline::bless` from `src/lut.rs`: when the chain is non-empty,
recompute the cached channel counts from the first and last stage. -/
def Pipeline.bless (p : Pipeline) : Pipeline :=
  match p.elements.head?, p.elements.getLast? with
  | Option.some first, Option.some last =>
      { p with input_channels := first.input_channels,
               output_channels := last.output_channels }
  | _, _ => p

/-- `Pipeline::alloc` from `src/lut.rs`: panics (`Option.none`) when
either requested count reaches `MAX_CHANNELS`; zero counts are allowed
as placeholders. -/
def Pipeline.alloc (input_channels output_channels : Nat) : Option Pipeline :=
  if input_channels ≥ MAX_CHANNELS ∨ output_channels ≥ MAX_CHANNELS then
    Option.none
  else
    Option.some (Pipeline.bless
      { elements := [], input_channels := input_channels,
        output_channels := output_channels, save_as_8_bits := false })

/-- `Pipeline::prepend_stage` from `src/lut.rs`. -/
def Pipeline.prepend_stage (p : Pipeline) (stage : Stage) : Pipeline :=
  Pipeline.bless { p with elements := stage :: p.elements }

/-- `Pipeline::append_stage` from `src/lut.rs`. -/
def Pipeline.append_stage (p : Pipeline) (stage : Stage) : Pipeline :=
  Pipeline.bless { p with elements := p.elements ++ [stage] }

/-- `Pipeline::concat` from `src/lut.rs`: inherit the other pipeline's
counts when both chains are empty, then push a clone of every stage of
`other` in order, then bless. `other` is taken by shared reference in
the source and never mutated. -/
def Pipeline.concat (p other : Pipeline) : Pipeline :=
  let p1 :=
    if p.elements.isEmpty && other.elements.isEmpty then
      { p with input_channels := other.input_channels,
               output_channels := other.output_channels }
    else p
  Pipeline.bless { p1 with elements := p1.elements ++ other.elements }

/-- The zero-initialized scratch buffer `[0.; MAX_STAGE_CHANNELS]`. -/
def zeros (n : Nat) : List ℚ := List.replicate n 0

/-- The double-buffered chain-execution loop shared by `lut_eval_16`
and `lut_eval_float`: `phase = false` means the current buffer is `s0`
and the stage writes `s1`, and conversely; the phase flips after every
stage. The entries of the written buffer that the stage does not touch
keep their previous contents, exactly as in the source. -/
def runChain : List Stage → List ℚ → List ℚ → Bool → Option (List ℚ × List ℚ × Bool)
  | [], s0, s1, phase => Option.some (s0, s1, phase)
  | stage :: rest, s0, s1, phase =>
      if phase then
        match Stage.eval stage s1 s0 with
        | Option.some s0n => runChain rest s0n s1 false
        | Option.none => Option.none
      else
        match Stage.eval stage s0 s1 with
        | Option.some s1n => runChain rest s0 s1n true
        | Option.none => Option.none

/-- Modelled from the spec: `internal::quick_saturate_word` is imported
from a module that is not under `src/`. Per the spec, re-quantization
to the 0..65535 domain is "with rounding and saturation at both ends":
round to the nearest integer, then clamp into `0..65535`. -/
def quick_saturate_word (d : ℚ) : Nat :=
  let r := round d
  if r < 0 then 0 else if 65535 < r then 65535 else r.toNat

/-- `from_float_to_16` from `src/lut.rs`: `output[i] =
quick_saturate_word(input[i] * 65535.)` for `i in 0..n`; out-of-bounds
indexing panics (`Option.none`). -/
def from_float_to_16 (input : List ℚ) (output : List Nat) (n : Nat) :
    Option (List Nat) :=
  if n ≤ input.length ∧ n ≤ output.length then
    Option.some (writeRange
      (fun i => quick_saturate_word (input.getD i 0 * 65535)) n output)
  else Option.none

/-- `from_16_to_float` from `src/lut.rs`: `output[i] = input[i] as f32
/ 65535.` for `i in 0..input.len()`; unlike `copy_float_slice` there is
no truncation, so an input longer than the output panics
(`Option.none`). -/
def from_16_to_float (input : List Nat) (output : List ℚ) : Option (List ℚ) :=
  if input.length ≤ output.length then
    Option.some (writeRange
      (fun i => (input.getD i 0 : ℚ) / 65535) input.length output)
  else Option.none

/-- `lut_eval_16` from `src/lut.rs`: decode the 16-bit input into the
first scratch buffer, run the chain, re-quantize the leading
`output_channels` entries of the final buffer. -/
def lut_eval_16 (input output : List Nat) (pipeline : Pipeline) :
    Option (List Nat) :=
  match from_16_to_float input (zeros MAX_STAGE_CHANNELS) with
  | Option.some buf =>
      match runChain pipeline.elements buf (zeros MAX_STAGE_CHANNELS) false with
      | Option.some (s0, s1, phase) =>
          from_float_to_16 (if phase then s1 else s0) output
            pipeline.output_channels
      | Option.none => Option.none
  | Option.none => Option.none

/-- `lut_eval_float` from `src/lut.rs`: copy the input into the first
scratch buffer (truncated or zero-padded to the scratch capacity), run
the chain, copy the final buffer into the caller's output through
`copy_float_slice`. -/
def lut_eval_float (input output : List ℚ) (pipeline : Pipeline) :
    Option (List ℚ) :=
  match runChain pipeline.elements
      (copy_float_slice input (zeros MAX_STAGE_CHANNELS))
      (zeros MAX_STAGE_CHANNELS) false with
  | Option.some (s0, s1, phase) =>
      Option.some (copy_float_slice (if phase then s1 else s0) output)
  | Option.none => Option.none

/-- `Pipeline::eval_16` (the stored function pointer is always
`lut_eval_16`). -/
def Pipeline.eval_16 (p : Pipeline) (input output : List Nat) :
    Option (List Nat) :=
  lut_eval_16 input output p

/-- `Pipeline::eval_float` (the stored function pointer is always
`lut_eval_float`). -/
def Pipeline.eval_float (p : Pipeline) (input output : List ℚ) :
    Option (List ℚ) :=
  lut_eval_float input output p

/-! Helper lemmas about the buffer-write primitives. -/

theorem writeRangeAux_length {α : Type} (f : Nat → α) (n start : Nat)
    (l : List α) : (writeRangeAux f n start l).length = l.length := by
  induction l generalizing start with
  | nil => rfl
  | cons v rest ih => simp [writeRangeAux, ih]

theorem writeRange_length {α : Type} (f : Nat → α) (n : Nat) (l : List α) :
    (writeRange f n l).length = l.length :=
  writeRangeAux_length f n 0 l

theorem writeRangeAux_getD {α : Type} (f : Nat → α) (n start i : Nat)
    (l : List α) (d : α) :
    (writeRangeAux f n start l).getD i d =
      if i < l.length ∧ start + i < n then f (start + i) else l.getD i d := by
  induction l generalizing start i with
  | nil => simp [writeRangeAux]
  | cons v rest ih =>
      cases i with
      | zero => simp [writeRangeAux]
      | succ j =>
          have e : start + 1 + j = start + (j + 1) := by omega
          simp only [writeRangeAux, List.getD_cons_succ, List.length_cons,
            Nat.succ_lt_succ_iff, ih (start + 1) j, e]

theorem writeRange_getD {α : Type} (f : Nat → α) (n i : Nat) (l : List α)
    (d : α) :
    (writeRange f n l).getD i d =
      if i < l.length ∧ i < n then f i else l.getD i d := by
  simpa [writeRange] using writeRangeAux_getD f n 0 i l d

theorem copy_float_slice_length (src dest : List ℚ) :
    (copy_float_slice src dest).length = dest.length := by
  unfold copy_float_slice
  split <;> exact writeRange_length _ _ _

theorem copy_float_slice_getD (src dest : List ℚ) (i : Nat) (d : ℚ) :
    (copy_float_slice src dest).getD i d =
      if i < dest.length ∧ i < src.length then src.getD i 0
      else dest.getD i d := by
  unfold copy_float_slice
  split
  case isTrue h =>
      rw [writeRange_getD]
      by_cases hi : i < dest.length
      · simp [hi, Nat.lt_of_lt_of_le hi (Nat.le_of_lt h)]
      · simp [hi]
  case isFalse h =>
      rw [writeRange_getD]

theorem ext_of_getD {α : Type} (l1 l2 : List α) (d : α)
    (hlen : l1.length = l2.length)
    (h : ∀ i, i < l1.length → l1.getD i d = l2.getD i d) : l1 = l2 := by
  apply List.ext_getElem hlen
  intro i h1 h2
  have hh := h i h1
  rwa [List.getD_eq_getElem _ _ h1, List.getD_eq_getElem _ _ h2] at hh

theorem foldl_range_add (g : Nat → ℚ) (n : Nat) (a : ℚ) :
    (List.range n).foldl (fun t j => t + g j) a =
      a + ∑ j ∈ Finset.range n, g j := by
  induction n with
  | zero => simp
  | succ m ih =>
      rw [List.range_succ, List.foldl_append, ih, Finset.sum_range_succ]
      simp [List.foldl]
      ring

theorem matrixAcc_eq_sum (input matrix : List ℚ) (inCh i : Nat) :
    matrixAcc input matrix inCh i =
      ∑ j ∈ Finset.range inCh, input.getD j 0 * matrix.getD (i * inCh + j) 0 := by
  unfold matrixAcc
  rw [foldl_range_add]
  ring

theorem matrixAcc3 (input matrix : List ℚ) (i : Nat) :
    matrixAcc input matrix 3 i =
      input.getD 0 0 * matrix.getD (i * 3) 0 +
        input.getD 1 0 * matrix.getD (i * 3 + 1) 0 +
        input.getD 2 0 * matrix.getD (i * 3 + 2) 0 := by
  have h3 : List.range 3 = [0, 1, 2] := rfl
  unfold matrixAcc
  rw [h3]
  simp [List.foldl]

/-! Helper lemmas about `Pipeline::bless` and the evaluation loop. -/

theorem bless_elements (p : Pipeline) :
    (Pipeline.bless p).elements = p.elements := by
  unfold Pipeline.bless
  cases p.elements.head? <;> cases p.elements.getLast? <;> rfl

theorem bless_counts (p : Pipeline) (first last : Stage)
    (hh : p.elements.head? = Option.some first)
    (hl : p.elements.getLast? = Option.some last) :
    (Pipeline.bless p).input_channels = first.input_channels ∧
      (Pipeline.bless p).output_channels = last.output_channels := by
  unfold Pipeline.bless
  rw [hh, hl]
  exact ⟨rfl, rfl⟩

theorem Stage.eval_length (stage : Stage) (input output r : List ℚ)
    (h : Stage.eval stage input output = Option.some r) :
    r.length = output.length := by
  unfold Stage.eval at h
  split at h
  · unfold evaluate_matrix at h
    split at h
    · split at h
      · injection h with h
        subst h
        rfl
      · split at h
        · split at h
          · injection h with h
            subst h
            exact writeRange_length _ _ _
          · cases h
        · split at h
          · injection h with h
            subst h
            exact writeRange_length _ _ _
          · cases h
    · cases h
  · unfold clipper at h
    split at h
    · injection h with h
      subst h
      exact writeRange_length _ _ _
    · cases h
  · injection h with h
    subst h
    exact copy_float_slice_length _ _

theorem runChain_nil (s0 s1 : List ℚ) (phase : Bool) :
    runChain [] s0 s1 phase = Option.some (s0, s1, phase) := rfl

theorem runChain_lengths (stages : List Stage) (s0 s1 t0 t1 : List ℚ)
    (ph ph2 : Bool)
    (h : runChain stages s0 s1 ph = Option.some (t0, t1, ph2)) :
    t0.length = s0.length ∧ t1.length = s1.length := by
  induction stages generalizing s0 s1 ph with
  | nil =>
      rw [runChain_nil] at h
      injection h with h
      rw [Prod.mk.injEq, Prod.mk.injEq] at h
      exact ⟨h.1 ▸ rfl, h.2.1 ▸ rfl⟩
  | cons stage rest ih =>
      unfold runChain at h
      split at h
      · split at h
        · rename_i s0n heq
          have hr := ih _ _ _ h
          exact ⟨hr.1.trans (Stage.eval_length _ _ _ _ heq), hr.2⟩
        · cases h
      · split at h
        · rename_i s1n heq
          have hr := ih _ _ _ h
          exact ⟨hr.1, hr.2.trans (Stage.eval_length _ _ _ _ heq)⟩
        · cases h

/-- The arity invariant: a non-empty pipeline's cached counts agree
with the declared counts of the first and last stage of its chain. -/
def arityInv (p : Pipeline) : Prop :=
  p.elements ≠ [] →
    Option.map Stage.input_channels p.elements.head? =
        Option.some p.input_channels ∧
      Option.map Stage.output_channels p.elements.getLast? =
        Option.some p.output_channels

theorem arityInv_bless (p : Pipeline) : arityInv (Pipeline.bless p) := by
  intro hne
  rw [bless_elements] at hne
  obtain ⟨first, hh⟩ : ∃ f, p.elements.head? = Option.some f := by
    cases he : p.elements.head? with
    | none => exact absurd (List.head?_eq_none_iff.mp he) hne
    | some f => exact ⟨f, rfl⟩
  obtain ⟨last, hl⟩ : ∃ l, p.elements.getLast? = Option.some l := by
    cases he : p.elements.getLast? with
    | none => exact absurd (List.getLast?_eq_none_iff.mp he) hne
    | some l => exact ⟨l, rfl⟩
  have hc := bless_counts p first last hh hl
  rw [bless_elements, hh, hl, hc.1, hc.2]
  exact ⟨rfl, rfl⟩

/-- An empty 3→3 pipeline, used as a concrete instance below. -/
def pipe33 : Pipeline :=
  { elements := [], input_channels := 3, output_channels := 3,
    save_as_8_bits := false }

/-- C1: for every pipeline, after every mutation operation
(`prepend_stage`, `append_stage`, `concat`), if the stage sequence is
non-empty then the cached `input_channels` equals the first stage's
declared `input_channels` and the cached `output_channels` equals the
last stage's declared `output_channels`. -/
theorem mutations_preserve_arity_invariant (p other : Pipeline)
    (stage : Stage) :
    arityInv (p.prepend_stage stage) ∧ arityInv (p.append_stage stage) ∧
      arityInv (p.concat other) :=
  ⟨arityInv_bless _, arityInv_bless _, arityInv_bless _⟩

/-- Concrete instance of C1: prepending, appending and concatenating on
an empty 3→3 pipeline. -/
theorem mutations_preserve_arity_invariant_witness :
    arityInv (pipe33.prepend_stage (Stage.new_identity 2)) ∧
      arityInv (pipe33.append_stage (Stage.new_identity 2)) ∧
      arityInv (pipe33.concat pipe33) :=
  mutations_preserve_arity_invariant pipe33 pipe33 (Stage.new_identity 2)

/-- C8: `concat` appends a copy of every stage of `other`, in order; if
both chains were empty before the call the counts are inherited from
`other`; otherwise the counts equal the resulting chain's first stage's
`input_channels` and last stage's `output_channels`. (`other` is read
through a shared reference in the source and is never modified; in this
pure embedding that is immediate.) -/
theorem concat_correct (p other : Pipeline) :
    (p.concat other).elements = p.elements ++ other.elements ∧
    (p.elements = [] → other.elements = [] →
      (p.concat other).input_channels = other.input_channels ∧
        (p.concat other).output_channels = other.output_channels) ∧
    (∀ first last,
      (p.elements ++ other.elements).head? = Option.some first →
      (p.elements ++ other.elements).getLast? = Option.some last →
      (p.concat other).input_channels = first.input_channels ∧
        (p.concat other).output_channels = last.output_channels) := by
  refine ⟨?_, ?_, ?_⟩
  · simp only [Pipeline.concat]
    rw [bless_elements]
    split <;> rfl
  · intro hp ho
    simp [Pipeline.concat, Pipeline.bless, hp, ho]
  · intro first last hh hl
    simp only [Pipeline.concat]
    split
    · exact bless_counts _ first last hh hl
    · exact bless_counts _ first last hh hl

/-- Concrete instance of C8: concatenating an empty pipeline with a
one-stage pipeline. -/
theorem concat_correct_witness :
    (pipe33.concat (pipe33.append_stage (Stage.new_identity 2))).elements =
        pipe33.elements ++ (pipe33.append_stage (Stage.new_identity 2)).elements ∧
    (pipe33.elements = [] →
      (pipe33.append_stage (Stage.new_identity 2)).elements = [] →
      (pipe33.concat (pipe33.append_stage (Stage.new_identity 2))).input_channels =
          (pipe33.append_stage (Stage.new_identity 2)).input_channels ∧
        (pipe33.concat (pipe33.append_stage (Stage.new_identity 2))).output_channels =
          (pipe33.append_stage (Stage.new_identity 2)).output_channels) ∧
    (∀ first last,
      (pipe33.elements ++ (pipe33.append_stage (Stage.new_identity 2)).elements).head? =
          Option.some first →
      (pipe33.elements ++ (pipe33.append_stage (Stage.new_identity 2)).elements).getLast? =
          Option.some last →
      (pipe33.concat (pipe33.append_stage (Stage.new_identity 2))).input_channels =
          first.input_channels ∧
        (pipe33.concat (pipe33.append_stage (Stage.new_identity 2))).output_channels =
          last.output_channels) :=
  concat_correct pipe33 (pipe33.append_stage (Stage.new_identity 2))

/-- C9: `Pipeline::alloc` panics exactly when either requested count
reaches `MAX_CHANNELS`, and otherwise returns an empty pipeline whose
cached counts equal the given values. -/
theorem alloc_correct (input_channels output_channels : Nat) :
    (Pipeline.alloc input_channels output_channels = Option.none ↔
      input_channels ≥ MAX_CHANNELS ∨ output_channels ≥ MAX_CHANNELS) ∧
    ∀ p, Pipeline.alloc input_channels output_channels = Option.some p →
      p.elements = [] ∧ p.input_channels = input_channels ∧
        p.output_channels = output_channels := by
  constructor
  · unfold Pipeline.alloc
    split
    case isTrue h => simpa using h
    case isFalse h => simpa using h
  · intro p hp
    unfold Pipeline.alloc at hp
    split at hp
    · cases hp
    · injection hp with hp
      subst hp
      exact ⟨rfl, rfl, rfl⟩

/-- The pipeline value returned by `Pipeline::alloc(3, 4)`. -/
def pipe34 : Pipeline :=
  { elements := [], input_channels := 3, output_channels := 4,
    save_as_8_bits := false }

/-- Concrete instance of C9: `alloc 3 4` succeeds and returns an empty
pipeline with the given counts. -/
theorem alloc_correct_witness :
    pipe34.elements = [] ∧ pipe34.input_channels = 3 ∧
      pipe34.output_channels = 4 :=
  (alloc_correct 3 4).2 pipe34 (by decide)

/-- C2: a matrix stage built by `new_matrix rows cols M off` evaluates,
on an input buffer holding at least `cols = input_channels` entries, to
`output[i] = (Σ_j input[j]*M[i,j]) + offset[i]` for each
`i < rows = output_channels`, the offset term being 0 when no offset
vector is present; entries of the output buffer at or past `rows` are
not written. The source accumulates the sum in `f64`; values here are
exact rationals, so the accumulation (a left fold in the same order) is
exact. -/
theorem eval_new_matrix (rows cols : Nat) (M : List ℚ)
    (off : Option (List ℚ)) (input output : List ℚ) :
    Stage.eval (Stage.new_matrix rows cols M off) input output =
      evaluate_matrix input output (Stage.new_matrix rows cols M off) := rfl

theorem matrix_stage_correct (rows cols : Nat) (M : List ℚ)
    (off : Option (List ℚ)) (input output : List ℚ)
    (hM : rows * cols ≤ M.length)
    (hoff : ∀ o, off = Option.some o → rows ≤ o.length)
    (hin : cols ≤ input.length) (hout : rows ≤ output.length) :
    ∃ r, Stage.eval (Stage.new_matrix rows cols M off) input output =
        Option.some r ∧
      r.length = output.length ∧
      (∀ i, i < rows → r.getD i 0 =
        (∑ j ∈ Finset.range cols,
          input.getD j 0 * M.getD (i * cols + j) 0) + offsetTerm off i) ∧
      (∀ i, rows ≤ i → r.getD i 0 = output.getD i 0) := by
  by_cases h0 : rows = 0
  · subst h0
    refine ⟨output, ?_, rfl, ?_, ?_⟩
    · rw [eval_new_matrix]
      simp [evaluate_matrix, Stage.new_matrix, Stage.alloc]
    · intro i hi
      exact absurd hi (Nat.not_lt_zero i)
    · intro i _
      rfl
  · cases off with
    | none =>
        refine ⟨writeRange (fun i => matrixAcc input M cols i) rows output,
          ?_, writeRange_length _ _ _, ?_, ?_⟩
        · rw [eval_new_matrix]
          simp only [evaluate_matrix, Stage.new_matrix, Stage.alloc]
          rw [if_neg h0, if_pos ⟨hin, hout, hM⟩]
        · intro i hi
          rw [writeRange_getD, if_pos ⟨Nat.lt_of_lt_of_le hi hout, hi⟩,
            matrixAcc_eq_sum]
          simp [offsetTerm]
        · intro i hi
          rw [writeRange_getD, if_neg]
          intro hc
          omega
    | some o =>
        refine ⟨writeRange (fun i => matrixAcc input M cols i + o.getD i 0)
          rows output, ?_, writeRange_length _ _ _, ?_, ?_⟩
        · rw [eval_new_matrix]
          simp only [evaluate_matrix, Stage.new_matrix, Stage.alloc]
          rw [if_neg h0, if_pos ⟨hin, hout, hM, hoff o rfl⟩]
        · intro i hi
          rw [writeRange_getD, if_pos ⟨Nat.lt_of_lt_of_le hi hout, hi⟩,
            matrixAcc_eq_sum]
          simp [offsetTerm]
        · intro i hi
          rw [writeRange_getD, if_neg]
          intro hc
          omega

/-- Concrete instance of C2: a 2×2 matrix with an offset vector. -/
theorem matrix_stage_correct_witness :
    ∃ r, Stage.eval (Stage.new_matrix 2 2 [1, 2, 3, 4] (Option.some [10, 20]))
        [5, 7] [0, 0] = Option.some r ∧
      r.length = ([0, 0] : List ℚ).length ∧
      (∀ i, i < 2 → r.getD i 0 =
        (∑ j ∈ Finset.range 2, ([5, 7] : List ℚ).getD j 0 *
          ([1, 2, 3, 4] : List ℚ).getD (i * 2 + j) 0) +
          offsetTerm (Option.some [10, 20]) i) ∧
      (∀ i, 2 ≤ i → r.getD i 0 = ([0, 0] : List ℚ).getD i 0) :=
  matrix_stage_correct 2 2 [1, 2, 3, 4] (Option.some [10, 20]) [5, 7] [0, 0]
    (by decide) (fun o ho => by cases ho; decide) (by decide) (by decide)

/-- C7: a clip-negatives stage with `n` declared input channels writes
`output[i] = max(input[i], 0)` for each `i < n`; no upper bound is
applied (a nonnegative input entry of any magnitude passes through
unchanged), and entries at or past `n` are not written. -/
theorem clip_negatives_correct (n : Nat) (input output : List ℚ)
    (hin : n ≤ input.length) (hout : n ≤ output.length) :
    ∃ r, Stage.eval (Stage.new_clip_negatives n) input output =
        Option.some r ∧
      r.length = output.length ∧
      (∀ i, i < n → r.getD i 0 = max (input.getD i 0) 0) ∧
      (∀ i, i < n → 0 ≤ input.getD i 0 → r.getD i 0 = input.getD i 0) ∧
      (∀ i, n ≤ i → r.getD i 0 = output.getD i 0) := by
  refine ⟨writeRange (fun i => max (input.getD i 0) 0) n output, ?_,
    writeRange_length _ _ _, ?_, ?_, ?_⟩
  · show clipper input output _ = _
    simp only [clipper, Stage.new_clip_negatives, Stage.alloc]
    rw [if_pos ⟨hin, hout⟩]
  · intro i hi
    rw [writeRange_getD, if_pos ⟨Nat.lt_of_lt_of_le hi hout, hi⟩]
  · intro i hi hpos
    rw [writeRange_getD, if_pos ⟨Nat.lt_of_lt_of_le hi hout, hi⟩]
    exact max_eq_left hpos
  · intro i hi
    rw [writeRange_getD, if_neg]
    intro hc
    omega

/-- Concrete instance of C7: negative, zero, and large positive values
per channel. -/
theorem clip_negatives_correct_witness :
    ∃ r, Stage.eval (Stage.new_clip_negatives 3) [-1, 0, 5] [0, 0, 0] =
        Option.some r ∧
      r.length = ([0, 0, 0] : List ℚ).length ∧
      (∀ i, i < 3 → r.getD i 0 = max (([-1, 0, 5] : List ℚ).getD i 0) 0) ∧
      (∀ i, i < 3 → 0 ≤ ([-1, 0, 5] : List ℚ).getD i 0 →
        r.getD i 0 = ([-1, 0, 5] : List ℚ).getD i 0) ∧
      (∀ i, 3 ≤ i → r.getD i 0 = ([0, 0, 0] : List ℚ).getD i 0) :=
  clip_negatives_correct 3 [-1, 0, 5] [0, 0, 0] (by decide) (by decide)

theorem zeros_length (n : Nat) : (zeros n).length = n := by
  simp [zeros]

/-- An empty 1→1 pipeline, used as a concrete instance below. -/
def pipe11 : Pipeline :=
  { elements := [], input_channels := 1, output_channels := 1,
    save_as_8_bits := false }

/-- C3 counterexample: on the empty 1→1 pipeline `pipe11`
(`output_channels = 1`, so `N = 1`), calling `lut_eval_float` with a
2-entry output buffer `[5, 7]` overwrites the entry at index 1 — an
index beyond `N - 1` — with the scratch buffer's content `0`, so the
prior value `7` does not survive as the claim would require. -/
theorem lut_eval_float_writes_past_output_channels :
    lut_eval_float [2] [5, 7] pipe11 = Option.some [2, 0] ∧
      lut_eval_float [2] [5, 7] pipe11 ≠ Option.some [2, 7] := by
  constructor
  · decide
  · decide

/-- C3 (amended): after running the stage chain, `lut_eval_float`
copies the final scratch buffer to the caller's output through
`copy_float_slice`: exactly the leading
`min(output.len(), MAX_STAGE_CHANNELS)` entries of the final buffer are
copied, and entries of the caller's output beyond that are left
unchanged. In particular, when the output buffer has exactly
`N = output_channels ≤ MAX_STAGE_CHANNELS` entries, exactly the
leading `N` entries of the final buffer are copied. -/
theorem lut_eval_float_output_copy (p : Pipeline)
    (input output t0 t1 : List ℚ) (ph : Bool)
    (h : runChain p.elements (copy_float_slice input (zeros MAX_STAGE_CHANNELS))
        (zeros MAX_STAGE_CHANNELS) false = Option.some (t0, t1, ph)) :
    lut_eval_float input output p =
        Option.some (copy_float_slice (if ph then t1 else t0) output) ∧
      ∀ i, (copy_float_slice (if ph then t1 else t0) output).getD i 0 =
        if i < output.length ∧ i < MAX_STAGE_CHANNELS
        then (if ph then t1 else t0).getD i 0
        else output.getD i 0 := by
  have hlen := runChain_lengths _ _ _ _ _ _ _ h
  have hl0 : t0.length = MAX_STAGE_CHANNELS := by
    rw [hlen.1, copy_float_slice_length, zeros_length]
  have hl1 : t1.length = MAX_STAGE_CHANNELS := by
    rw [hlen.2, zeros_length]
  have hfin : (if ph then t1 else t0).length = MAX_STAGE_CHANNELS := by
    cases ph <;> simp [hl0, hl1]
  constructor
  · unfold lut_eval_float
    rw [h]
  · intro i
    rw [copy_float_slice_getD, hfin]

/-- The first scratch buffer of `lut_eval_float [2] ...`. -/
def s0c : List ℚ := copy_float_slice [2] (zeros MAX_STAGE_CHANNELS)

/-- Concrete instance of the amended C3 on the empty pipeline
`pipe11`. -/
theorem lut_eval_float_output_copy_witness :
    lut_eval_float [2] [5, 7] pipe11 =
        Option.some (copy_float_slice
          (if false then zeros MAX_STAGE_CHANNELS else s0c) [5, 7]) ∧
      ∀ i, (copy_float_slice
          (if false then zeros MAX_STAGE_CHANNELS else s0c) [5, 7]).getD i 0 =
        if i < ([5, 7] : List ℚ).length ∧ i < MAX_STAGE_CHANNELS
        then (if false then zeros MAX_STAGE_CHANNELS else s0c).getD i 0
        else ([5, 7] : List ℚ).getD i 0 :=
  lut_eval_float_output_copy pipe11 [2] [5, 7] s0c
    (zeros MAX_STAGE_CHANNELS) false rfl

theorem quick_saturate_word_natCast (v : Nat) (hv : v ≤ 65535) :
    quick_saturate_word ((v : ℚ)) = v := by
  simp only [quick_saturate_word, round_natCast]
  rw [if_neg (by omega), if_neg (by omega)]
  exact Int.toNat_natCast v

theorem quick_saturate_word_clamps (x : ℚ) :
    (quick_saturate_word x : ℤ) = max 0 (min 65535 (round x)) := by
  simp only [quick_saturate_word]
  split
  · omega
  · split
    · omega
    · rw [Int.toNat_of_nonneg (by omega)]
      omega

/-- C4: in the integer path, each input sample is decoded by dividing
by 65535 (so 0 decodes to exactly 0 and 65535 decodes to exactly 1),
and each final float value is re-quantized by multiplying by 65535 and
applying `quick_saturate_word`, which rounds to nearest and saturates
below at 0 and above at 65535. -/
theorem eval16_quantization (input : List Nat) (buf : List ℚ) (n : Nat)
    (output : List Nat) (hin : input.length ≤ MAX_STAGE_CHANNELS)
    (hn : n ≤ buf.length) (hno : n ≤ output.length) :
    (∃ r, from_16_to_float input (zeros MAX_STAGE_CHANNELS) = Option.some r ∧
      ∀ i, i < input.length → r.getD i 0 = (input.getD i 0 : ℚ) / 65535) ∧
    ((0 : ℚ) / 65535 = 0 ∧ (65535 : ℚ) / 65535 = 1) ∧
    (∃ s, from_float_to_16 buf output n = Option.some s ∧
      ∀ i, i < n → s.getD i 0 = quick_saturate_word (buf.getD i 0 * 65535)) ∧
    (∀ x : ℚ, (quick_saturate_word x : ℤ) = max 0 (min 65535 (round x))) := by
  refine ⟨?_, ⟨by norm_num, by norm_num⟩, ?_, quick_saturate_word_clamps⟩
  · refine ⟨writeRange (fun i => (input.getD i 0 : ℚ) / 65535) input.length
      (zeros MAX_STAGE_CHANNELS), ?_, ?_⟩
    · unfold from_16_to_float
      rw [if_pos (by rw [zeros_length]; exact hin)]
    · intro i hi
      rw [writeRange_getD, if_pos ⟨by rw [zeros_length]; omega, hi⟩]
  · refine ⟨writeRange (fun i => quick_saturate_word (buf.getD i 0 * 65535))
      n output, ?_, ?_⟩
    · unfold from_float_to_16
      rw [if_pos ⟨hn, hno⟩]
    · intro i hi
      rw [writeRange_getD, if_pos ⟨by omega, hi⟩]

/-- Concrete instance of C4: decoding `[0, 65535]` and re-quantizing a
one-entry buffer `[1/2]`. -/
theorem eval16_quantization_witness :
    (∃ r, from_16_to_float [0, 65535] (zeros MAX_STAGE_CHANNELS) =
        Option.some r ∧
      ∀ i, i < ([0, 65535] : List Nat).length →
        r.getD i 0 = (([0, 65535] : List Nat).getD i 0 : ℚ) / 65535) ∧
    ((0 : ℚ) / 65535 = 0 ∧ (65535 : ℚ) / 65535 = 1) ∧
    (∃ s, from_float_to_16 [1/2] [0] 1 = Option.some s ∧
      ∀ i, i < 1 → s.getD i 0 =
        quick_saturate_word (([1/2] : List ℚ).getD i 0 * 65535)) ∧
    (∀ x : ℚ, (quick_saturate_word x : ℤ) = max 0 (min 65535 (round x))) :=
  eval16_quantization [0, 65535] [1/2] 1 [0] (by decide) (by decide) (by decide)

/-- C5: for a pipeline with an empty stage chain (with the input and
output buffers sized to its channel counts — which for a pass-through
to be meaningful must agree — and within the scratch capacity),
`eval_float` returns the input unchanged, and `eval_16` returns every
in-range 16-bit input exactly. -/
theorem empty_pipeline_identity (p : Pipeline) (hp : p.elements = [])
    (inF outF : List ℚ) (in16 out16 : List Nat)
    (hinF : inF.length = p.input_channels)
    (houtF : outF.length = p.output_channels)
    (hio : p.input_channels = p.output_channels)
    (hcap : p.input_channels ≤ MAX_STAGE_CHANNELS)
    (hin16 : in16.length = p.input_channels)
    (hout16 : out16.length = p.output_channels)
    (hrange : ∀ v ∈ in16, v ≤ 65535) :
    lut_eval_float inF outF p = Option.some inF ∧
      lut_eval_16 in16 out16 p = Option.some in16 := by
  have hz : (zeros MAX_STAGE_CHANNELS).length = MAX_STAGE_CHANNELS :=
    zeros_length _
  constructor
  · have hstep : lut_eval_float inF outF p =
        Option.some (copy_float_slice
          (copy_float_slice inF (zeros MAX_STAGE_CHANNELS)) outF) := by
      unfold lut_eval_float
      rw [hp]
      rfl
    rw [hstep]
    congr 1
    apply ext_of_getD _ _ 0
    · rw [copy_float_slice_length]
      omega
    · intro i hi
      rw [copy_float_slice_length] at hi
      have hiF : i < inF.length := by omega
      have hiz : i < (copy_float_slice inF (zeros MAX_STAGE_CHANNELS)).length := by
        rw [copy_float_slice_length, hz]
        omega
      rw [copy_float_slice_getD, if_pos ⟨hi, hiz⟩, copy_float_slice_getD,
        if_pos ⟨by rw [hz]; omega, hiF⟩]
  · have hg1 : in16.length ≤ (zeros MAX_STAGE_CHANNELS).length := by
      rw [hz]
      omega
    have hstep : lut_eval_16 in16 out16 p =
        from_float_to_16
          (writeRange (fun i => (in16.getD i 0 : ℚ) / 65535) in16.length
            (zeros MAX_STAGE_CHANNELS))
          out16 p.output_channels := by
      unfold lut_eval_16 from_16_to_float
      rw [if_pos hg1, hp]
      rfl
    rw [hstep]
    unfold from_float_to_16
    rw [if_pos ⟨by rw [writeRange_length, hz]; omega, by omega⟩]
    congr 1
    apply ext_of_getD _ _ 0
    · rw [writeRange_length]
      omega
    · intro i hi
      rw [writeRange_length] at hi
      have hi16 : i < in16.length := by omega
      rw [writeRange_getD, if_pos ⟨hi, by omega⟩, writeRange_getD,
        if_pos ⟨by rw [hz]; omega, hi16⟩, div_mul_cancel₀ _ (by norm_num : (65535 : ℚ) ≠ 0)]
      have hmem : in16.getD i 0 ∈ in16 := by
        rw [List.getD_eq_getElem _ _ hi16]
        exact List.getElem_mem _
      exact quick_saturate_word_natCast _ (hrange _ hmem)

/-- Concrete instance of C5 on the empty 3→3 pipeline, with boundary
samples. -/
theorem empty_pipeline_identity_witness :
    lut_eval_float [0, 1/2, 1] [0, 0, 0] pipe33 =
        Option.some [0, 1/2, 1] ∧
      lut_eval_16 [0, 65535, 30000] [0, 0, 0] pipe33 =
        Option.some [0, 65535, 30000] :=
  empty_pipeline_identity pipe33 rfl [0, 1/2, 1] [0, 0, 0]
    [0, 65535, 30000] [0, 0, 0] (by decide) (by decide) (by decide)
    (by decide) (by decide) (by decide) (by decide)

/-- C10: the 16-bit path's decode step writes exactly `input.len()`
leading entries of the 128-entry scratch buffer (keeping the rest) and
is in bounds whenever `input.len() ≤ MAX_STAGE_CHANNELS`; an input
longer than `MAX_STAGE_CHANNELS` makes the decode step index the
fixed-size buffer out of bounds (a panic, `Option.none`, which
propagates through `lut_eval_16`) — unlike `eval_float`, whose
`copy_float_slice` truncates the input to the scratch capacity. -/
theorem eval16_decode_strict (input : List Nat) :
    (input.length ≤ MAX_STAGE_CHANNELS →
      ∃ r, from_16_to_float input (zeros MAX_STAGE_CHANNELS) =
          Option.some r ∧
        r.length = MAX_STAGE_CHANNELS ∧
        (∀ i, i < input.length → r.getD i 0 = (input.getD i 0 : ℚ) / 65535) ∧
        (∀ i, input.length ≤ i →
          r.getD i 0 = (zeros MAX_STAGE_CHANNELS).getD i 0)) ∧
    (MAX_STAGE_CHANNELS < input.length →
      from_16_to_float input (zeros MAX_STAGE_CHANNELS) = Option.none ∧
      ∀ output p, lut_eval_16 input output p = Option.none) ∧
    (∀ inputF : List ℚ,
      (copy_float_slice inputF (zeros MAX_STAGE_CHANNELS)).length =
          MAX_STAGE_CHANNELS ∧
      ∀ i, i < MAX_STAGE_CHANNELS → i < inputF.length →
        (copy_float_slice inputF (zeros MAX_STAGE_CHANNELS)).getD i 0 =
          inputF.getD i 0) := by
  refine ⟨?_, ?_, ?_⟩
  · intro hle
    refine ⟨writeRange (fun i => (input.getD i 0 : ℚ) / 65535) input.length
      (zeros MAX_STAGE_CHANNELS), ?_, ?_, ?_, ?_⟩
    · unfold from_16_to_float
      rw [if_pos (by rw [zeros_length]; exact hle)]
    · rw [writeRange_length, zeros_length]
    · intro i hi
      rw [writeRange_getD, if_pos ⟨by rw [zeros_length]; omega, hi⟩]
    · intro i hi
      rw [writeRange_getD, if_neg]
      intro hc
      omega
  · intro hgt
    have hnone : from_16_to_float input (zeros MAX_STAGE_CHANNELS) =
        Option.none := by
      unfold from_16_to_float
      rw [if_neg (by rw [zeros_length]; omega)]
    refine ⟨hnone, ?_⟩
    intro output p
    unfold lut_eval_16
    rw [hnone]
  · intro inputF
    refine ⟨copy_float_slice_length _ _, ?_⟩
    intro i hi hiF
    rw [copy_float_slice_getD, if_pos ⟨by rw [zeros_length]; omega, hiF⟩]

/-- Concrete instance of C10: a 129-entry input makes the 16-bit path
panic. -/
theorem eval16_decode_strict_witness :
    lut_eval_16 (List.replicate 129 0) [] pipe33 = Option.none :=
  ((eval16_decode_strict (List.replicate 129 0)).2.1
    (by simp [MAX_STAGE_CHANNELS])).2 [] pipe33

theorem eval_labv2_to_v4 (input output : List ℚ) :
    Stage.eval Stage.new_labv2_to_v4 input output =
      evaluate_matrix input output Stage.new_labv2_to_v4 := rfl

theorem eval_labv4_to_v2 (input output : List ℚ) :
    Stage.eval Stage.new_labv4_to_v2 input output =
      evaluate_matrix input output Stage.new_labv4_to_v2 := rfl

theorem matrixAcc_diag3 (c : ℚ) (input : List ℚ) {i : Nat} (hi : i < 3) :
    matrixAcc input [c, 0, 0, 0, c, 0, 0, 0, c] 3 i = input.getD i 0 * c := by
  rw [matrixAcc3]
  interval_cases i
  · rw [show ([c, 0, 0, 0, c, 0, 0, 0, c] : List ℚ).getD (0 * 3) 0 = c from rfl,
      show ([c, 0, 0, 0, c, 0, 0, 0, c] : List ℚ).getD (0 * 3 + 1) 0 = 0 from rfl,
      show ([c, 0, 0, 0, c, 0, 0, 0, c] : List ℚ).getD (0 * 3 + 2) 0 = 0 from rfl]
    ring
  · rw [show ([c, 0, 0, 0, c, 0, 0, 0, c] : List ℚ).getD (1 * 3) 0 = 0 from rfl,
      show ([c, 0, 0, 0, c, 0, 0, 0, c] : List ℚ).getD (1 * 3 + 1) 0 = c from rfl,
      show ([c, 0, 0, 0, c, 0, 0, 0, c] : List ℚ).getD (1 * 3 + 2) 0 = 0 from rfl]
    ring
  · rw [show ([c, 0, 0, 0, c, 0, 0, 0, c] : List ℚ).getD (2 * 3) 0 = 0 from rfl,
      show ([c, 0, 0, 0, c, 0, 0, 0, c] : List ℚ).getD (2 * 3 + 1) 0 = 0 from rfl,
      show ([c, 0, 0, 0, c, 0, 0, 0, c] : List ℚ).getD (2 * 3 + 2) 0 = c from rfl]
    ring

theorem matrixAcc_V2 (input : List ℚ) {i : Nat} (hi : i < 3) :
    matrixAcc input V2_TO_V4 3 i = input.getD i 0 * (65535 / 65280) :=
  matrixAcc_diag3 _ input hi

theorem matrixAcc_V4 (input : List ℚ) {i : Nat} (hi : i < 3) :
    matrixAcc input V4_TO_V2 3 i = input.getD i 0 * (65280 / 65535) :=
  matrixAcc_diag3 _ input hi

/-- C6: for every in-range 3-channel sample (boundaries 0 and 1
included), the Lab v2→v4 rescale stage followed by the Lab v4→v2
rescale stage reproduces the sample within 1/10000 (here in exact
rational arithmetic the round-trip error is exactly 0, since the
diagonal entries 65535/65280 and 65280/65535 are exact reciprocals). -/
theorem labv2_v4_roundtrip (x out1 out2 : List ℚ) (hx : x.length = 3)
    (h1 : 3 ≤ out1.length) (h2 : 3 ≤ out2.length)
    (_hrange : ∀ v ∈ x, 0 ≤ v ∧ v ≤ 1) :
    ∃ mid res,
      Stage.eval Stage.new_labv2_to_v4 x out1 = Option.some mid ∧
      Stage.eval Stage.new_labv4_to_v2 mid out2 = Option.some res ∧
      ∀ i, i < 3 → |res.getD i 0 - x.getD i 0| ≤ 1 / 10000 := by
  refine ⟨writeRange (fun i => matrixAcc x V2_TO_V4 3 i) 3 out1,
    writeRange (fun i => matrixAcc
      (writeRange (fun i => matrixAcc x V2_TO_V4 3 i) 3 out1) V4_TO_V2 3 i)
      3 out2, ?_, ?_, ?_⟩
  · rw [eval_labv2_to_v4]
    simp only [evaluate_matrix, Stage.new_labv2_to_v4, Stage.new_matrix,
      Stage.alloc]
    rw [if_neg (by decide), if_pos ⟨by omega, h1, by decide⟩]
  · rw [eval_labv4_to_v2]
    simp only [evaluate_matrix, Stage.new_labv4_to_v2, Stage.new_matrix,
      Stage.alloc]
    rw [if_neg (by decide),
      if_pos ⟨by rw [writeRange_length]; omega, h2, by decide⟩]
  · intro i hi
    have hmid :
        (writeRange (fun i => matrixAcc x V2_TO_V4 3 i) 3 out1).getD i 0 =
          x.getD i 0 * (65535 / 65280) := by
      rw [writeRange_getD, if_pos ⟨by omega, hi⟩, matrixAcc_V2 _ hi]
    rw [writeRange_getD, if_pos ⟨by omega, hi⟩, matrixAcc_V4 _ hi, hmid,
      mul_assoc, show (65535 / 65280 : ℚ) * (65280 / 65535) = 1 by norm_num,
      mul_one, sub_self, abs_zero]
    norm_num

/-- Concrete instance of C6 including the boundary values 0 and 1. -/
theorem labv2_v4_roundtrip_witness :
    ∃ mid res,
      Stage.eval Stage.new_labv2_to_v4 [0, 1, 1/2] [0, 0, 0] =
          Option.some mid ∧
      Stage.eval Stage.new_labv4_to_v2 mid [0, 0, 0] = Option.some res ∧
      ∀ i, i < 3 →
        |res.getD i 0 - ([0, 1, 1/2] : List ℚ).getD i 0| ≤ 1 / 10000 :=
  labv2_v4_roundtrip [0, 1, 1/2] [0, 0, 0] [0, 0, 0] (by decide) (by decide)
    (by decide) (by norm_num [List.forall_mem_cons])

end Lut
